import Mathlib

/-!
Verification of the halfedge-mesh core of the `openmodel` repository
(`src/geometry/mesh.rs`, with the vector primitives from
`src/geometry/vector.rs`).

Shallow embedding conventions:
* Rust `HashMap` fields are modelled as association lists with
  replace-in-place insertion (`fmInsert`), so the model is deterministic;
  every finite `f64` value that the mesh stores or manipulates exactly
  (coordinates, attribute values, the quantisation arithmetic of
  `from_polygons`) is modelled as a rational number, and the square-root
  based geometry (`length`, `unitize`, normals, areas) is modelled over
  the real numbers with exact arithmetic.
* Rust methods that mutate `&mut self` are modelled as functions from the
  mesh to a (result, new mesh) pair.
* The `data : Data` metadata field of `Vector` (name/guid bookkeeping) is
  omitted: no mesh operation reads it, and the repository's `PartialEq`
  for `Vector` compares only the three coordinates.
-/

namespace OpenModel

/-- Association-list lookup, modelling `HashMap::get`. -/
def fmLookup [DecidableEq κ] (k : κ) : List (κ × α) → Option α
  | [] => none
  | (k', a) :: t => if k' = k then some a else fmLookup k t

/-- Association-list insertion, modelling `HashMap::insert`: replaces the
value at an existing key, otherwise appends the binding. -/
def fmInsert [DecidableEq κ] (k : κ) (a : α) : List (κ × α) → List (κ × α)
  | [] => [(k, a)]
  | (k', a') :: t => if k' = k then (k, a) :: t else (k', a') :: fmInsert k a t

/-- Membership test, modelling `HashMap::contains_key`. -/
def fmContains [DecidableEq κ] (k : κ) (l : List (κ × α)) : Bool :=
  (fmLookup k l).isSome

/-- Modelling `HashMap::entry(k).or_insert(a)` used only for its effect on
the map (the Rust call sites discard the returned reference). -/
def fmEntryOr [DecidableEq κ] (k : κ) (a : α) (l : List (κ × α)) : List (κ × α) :=
  if fmContains k l then l else fmInsert k a l

/-- The keys of an association list. -/
def fmKeys (l : List (κ × α)) : List κ := l.map Prod.fst

theorem fmLookup_insert_self [DecidableEq κ] (k : κ) (a : α) (l : List (κ × α)) :
    fmLookup k (fmInsert k a l) = some a := by
  induction l with
  | nil => simp [fmInsert, fmLookup]
  | cons h t ih =>
    by_cases hk : h.1 = k
    · simp [fmInsert, hk, fmLookup]
    · simpa [fmInsert, hk, fmLookup] using ih

theorem fmLookup_insert_ne [DecidableEq κ] {j k : κ} (hjk : j ≠ k) (a : α)
    (l : List (κ × α)) : fmLookup j (fmInsert k a l) = fmLookup j l := by
  induction l with
  | nil =>
    simp only [fmInsert, fmLookup]
    rw [if_neg fun h => hjk h.symm]
  | cons hd t ih =>
    obtain ⟨k', a'⟩ := hd
    by_cases hk : k' = k
    · subst hk
      simp only [fmInsert, if_pos rfl, fmLookup]
      rw [if_neg fun h => hjk h.symm, if_neg fun h => hjk h.symm]
    · simp only [fmInsert, if_neg hk, fmLookup]
      by_cases hj : k' = j
      · rw [if_pos hj, if_pos hj]
      · rw [if_neg hj, if_neg hj, ih]

theorem fmLookup_insert [DecidableEq κ] (j k : κ) (a : α) (l : List (κ × α)) :
    fmLookup j (fmInsert k a l) = if k = j then some a else fmLookup j l := by
  by_cases h : k = j
  · subst h; simp [fmLookup_insert_self]
  · simp [h, fmLookup_insert_ne (fun hj => h hj.symm)]

theorem mem_fmKeys_iff [DecidableEq κ] (j : κ) (l : List (κ × α)) :
    j ∈ fmKeys l ↔ (fmLookup j l).isSome := by
  induction l with
  | nil => simp [fmKeys, fmLookup]
  | cons hd t ih =>
    obtain ⟨k', a'⟩ := hd
    have hcons : fmKeys ((k', a') :: t) = k' :: fmKeys t := rfl
    rw [hcons, List.mem_cons]
    by_cases hj : k' = j
    · subst hj; simp [fmLookup]
    · simp [fmLookup, hj, Ne.symm hj, ih]

theorem mem_fmKeys_insert [DecidableEq κ] (j k : κ) (a : α) (l : List (κ × α)) :
    j ∈ fmKeys (fmInsert k a l) ↔ j = k ∨ j ∈ fmKeys l := by
  rw [mem_fmKeys_iff, fmLookup_insert, mem_fmKeys_iff]
  by_cases h : k = j
  · subst h; simp
  · simp [h, Ne.symm h]

theorem fmLookup_entryOr_ne [DecidableEq κ] {j k : κ} (hjk : j ≠ k) (a : α)
    (l : List (κ × α)) : fmLookup j (fmEntryOr k a l) = fmLookup j l := by
  unfold fmEntryOr
  by_cases h : fmContains k l = true <;>
    simp [h, fmLookup_insert_ne hjk]

theorem fmLookup_entryOr_self [DecidableEq κ] (k : κ) (a : α) (l : List (κ × α)) :
    fmLookup k (fmEntryOr k a l) = some ((fmLookup k l).getD a) := by
  unfold fmEntryOr fmContains
  cases hl : fmLookup k l with
  | none => simp [hl, fmLookup_insert_self]
  | some x => simp [hl]

theorem fmLookup_entryOr [DecidableEq κ] (j k : κ) (a : α) (l : List (κ × α)) :
    fmLookup j (fmEntryOr k a l) =
      if k = j then some ((fmLookup j l).getD a) else fmLookup j l := by
  by_cases h : k = j
  · subst h; simp [fmLookup_entryOr_self]
  · simp [h, fmLookup_entryOr_ne (fun hj => h hj.symm)]

theorem fmLookup_isSome_insert [DecidableEq κ] {j k : κ} {a : α} {l : List (κ × α)}
    (h : (fmLookup j l).isSome) : (fmLookup j (fmInsert k a l)).isSome := by
  rw [fmLookup_insert]
  by_cases hk : k = j <;> simp [hk, h]

theorem mem_fmKeys_entryOr [DecidableEq κ] {j k : κ} {a : α} {l : List (κ × α)}
    (h : j ∈ fmKeys (fmEntryOr k a l)) : j = k ∨ j ∈ fmKeys l := by
  unfold fmEntryOr at h
  by_cases hc : fmContains k l = true
  · simp [hc] at h; exact Or.inr h
  · simp [hc] at h
    exact (mem_fmKeys_insert j k a l).mp h

/-- Mirrors `Point` from `src/geometry/point.rs` (three `f64` coordinates,
modelled as exact rationals). -/
structure Point where
  x : ℚ
  y : ℚ
  z : ℚ
deriving DecidableEq

/-- Mirrors `VertexData` from `src/geometry/mesh.rs`. -/
structure VertexData where
  x : ℚ
  y : ℚ
  z : ℚ
  attributes : List (String × ℚ)
deriving DecidableEq

/-- Mirrors `VertexData::new`. -/
def VertexData.new (point : Point) : VertexData :=
  { x := point.x, y := point.y, z := point.z, attributes := [] }

/-- Mirrors `VertexData::position`. -/
def VertexData.position (v : VertexData) : Point :=
  ⟨v.x, v.y, v.z⟩

/-- Mirrors the `Mesh` struct of `src/geometry/mesh.rs`: halfedge
connectivity, vertex and face stores, attribute maps, and the two
allocation counters. -/
structure Mesh where
  halfedge : List (Nat × List (Nat × Option Nat))
  vertex : List (Nat × VertexData)
  face : List (Nat × List Nat)
  facedata : List (Nat × List (String × ℚ))
  edgedata : List ((Nat × Nat) × List (String × ℚ))
  default_vertex_attributes : List (String × ℚ)
  default_face_attributes : List (String × ℚ)
  default_edge_attributes : List (String × ℚ)
  max_vertex : Nat
  max_face : Nat
deriving DecidableEq

/-- Mirrors `Mesh::new`. -/
def Mesh.new : Mesh where
  halfedge := []
  vertex := []
  face := []
  facedata := []
  edgedata := []
  default_vertex_attributes := [("x", 0), ("y", 0), ("z", 0)]
  default_face_attributes := []
  default_edge_attributes := []
  max_vertex := 0
  max_face := 0

/-- Mirrors `Mesh::clear`. -/
def Mesh.clear (m : Mesh) : Mesh :=
  { m with halfedge := [], vertex := [], face := [], facedata := [],
           edgedata := [], max_vertex := 0, max_face := 0 }

/-- Mirrors `Mesh::is_empty`. -/
def Mesh.is_empty (m : Mesh) : Bool :=
  m.vertex.isEmpty && m.face.isEmpty

/-- Mirrors `Mesh::number_of_vertices` (`HashMap::len`; the association
lists built by the operations below never repeat a key). -/
def Mesh.number_of_vertices (m : Mesh) : Nat := m.vertex.length

/-- Mirrors `Mesh::number_of_faces`. -/
def Mesh.number_of_faces (m : Mesh) : Nat := m.face.length

/-- Mirrors `Mesh::add_vertex`.  The Rust auto-allocation closure
pre-increments `max_vertex` and returns the incremented value; afterwards
`max_vertex` is bumped to `key + 1` whenever `key >= max_vertex`. -/
def Mesh.add_vertex (m : Mesh) (position : Point) (key : Option Nat) :
    Nat × Mesh :=
  let mv1 := match key with
    | some _ => m.max_vertex
    | none => m.max_vertex + 1
  let vertex_key := match key with
    | some k => k
    | none => mv1
  let mv2 := if mv1 ≤ vertex_key then vertex_key + 1 else mv1
  ⟨vertex_key,
    { m with vertex := fmInsert vertex_key (VertexData.new position) m.vertex,
             halfedge := fmEntryOr vertex_key [] m.halfedge,
             max_vertex := mv2 }⟩

/-- Directed lookup in the halfedge table: `halfedge[u][v]`. -/
def heLookup (u v : Nat) (he : List (Nat × List (Nat × Option Nat))) :
    Option (Option Nat) :=
  match fmLookup u he with
  | some inner => fmLookup v inner
  | none => none

/-- One iteration of the halfedge-update loop of `Mesh::add_face` for the
consecutive pair `(u, v)`: ensure both outer entries exist, set
`halfedge[u][v] = Some(face_key)`, and insert `halfedge[v][u] = None` if
that reverse key is absent. -/
def addFaceEdge (face_key u v : Nat)
    (he : List (Nat × List (Nat × Option Nat))) :
    List (Nat × List (Nat × Option Nat)) :=
  let he1 := fmEntryOr u [] he
  let he2 := fmEntryOr v [] he1
  let he3 := fmInsert u (fmInsert v (some face_key) ((fmLookup u he2).getD [])) he2
  if fmContains u ((fmLookup v he3).getD []) then he3
  else fmInsert v (fmInsert u none ((fmLookup v he3).getD [])) he3

/-- The halfedge-update loop of `Mesh::add_face`, folded over the list of
consecutive vertex pairs. -/
def addFaceEdges (face_key : Nat) (pairs : List (Nat × Nat))
    (he : List (Nat × List (Nat × Option Nat))) :
    List (Nat × List (Nat × Option Nat)) :=
  pairs.foldl (fun h p => addFaceEdge face_key p.1 p.2 h) he

/-- The cyclically consecutive vertex pairs
`(vertices[i], vertices[(i + 1) % n])` of `Mesh::add_face`. -/
def cyclePairs (vertices : List Nat) : List (Nat × Nat) :=
  (List.range vertices.length).map
    (fun i => (vertices.getD i 0, vertices.getD ((i + 1) % vertices.length) 0))

/-- Mirrors `Mesh::add_face`: validation (at least three vertices, every
vertex present, no duplicate vertex), face-key allocation with the same
counter discipline as `add_vertex`, face insertion, and the halfedge
update loop. -/
def Mesh.add_face (m : Mesh) (vertices : List Nat) (fkey : Option Nat) :
    Option Nat × Mesh :=
  if vertices.length < 3 then (none, m)
  else if ¬ (vertices.all (fun v => fmContains v m.vertex)) then (none, m)
  else if ¬ vertices.Nodup then (none, m)
  else
    let mf1 := match fkey with
      | some _ => m.max_face
      | none => m.max_face + 1
    let face_key := match fkey with
      | some k => k
      | none => mf1
    let mf2 := if mf1 ≤ face_key then face_key + 1 else mf1
    ⟨some face_key,
      { m with face := fmInsert face_key vertices m.face,
               halfedge := addFaceEdges face_key (cyclePairs vertices) m.halfedge,
               max_face := mf2 }⟩

/-- Mirrors `Mesh::vertex_position`. -/
def Mesh.vertex_position (m : Mesh) (vertex_key : Nat) : Option Point :=
  (fmLookup vertex_key m.vertex).map VertexData.position

/-- Mirrors `Mesh::face_vertices`. -/
def Mesh.face_vertices (m : Mesh) (face_key : Nat) : Option (List Nat) :=
  fmLookup face_key m.face

/-- Mirrors `Mesh::is_vertex_on_boundary`: true when some outgoing
halfedge of the vertex carries no face. -/
def Mesh.is_vertex_on_boundary (m : Mesh) (vertex_key : Nat) : Bool :=
  match fmLookup vertex_key m.halfedge with
  | some neighbors => neighbors.any (fun p => p.2.isNone)
  | none => false

/-- Mirrors `Mesh::vertex_neighbors`. -/
def Mesh.vertex_neighbors (m : Mesh) (vertex_key : Nat) : List Nat :=
  match fmLookup vertex_key m.halfedge with
  | some neighbors => fmKeys neighbors
  | none => []

/-- Mirrors `Mesh::vertex_faces`: the keys of the faces whose vertex list
contains the vertex, in face-map iteration order. -/
def Mesh.vertex_faces (m : Mesh) (vertex_key : Nat) : List Nat :=
  fmKeys (m.face.filter (fun fc => fc.2.contains vertex_key))

/-- Models `f64::round` (round half away from zero), as used by the
quantisation in `Mesh::from_polygons`. -/
def rustRound (q : ℚ) : ℤ :=
  if 0 ≤ q then ⌊q + 1/2⌋ else -⌊-q + 1/2⌋

/-- The loop state of `Mesh::from_polygons`: the mesh under construction
and the key-to-vertex map `vertex_map`, parametric in the type of
quantisation keys.  The Rust key is the fixed-precision decimal string
`format!("{:.10}_{:.10}_{:.10}", ...)` of rounded `f64` values; the
equality of those strings can differ from exact-rational equality of the
rounded triples (a negative-zero component renders as `-0.0000000000`,
and for precisions below `1e-10` distinct rounded values can render
identically), so the ingestion loop and every general deduplication
statement are modelled for an arbitrary key function, which the
program's string keys instantiate. -/
structure IngestSt (κ : Type) where
  mesh : Mesh
  vmap : List (κ × Nat)
deriving DecidableEq

/-- The body of the inner point loop of `Mesh::from_polygons`, for an
arbitrary quantisation key function: look the point's key up in
`vertex_map`, reuse the mapped handle if present, otherwise add a new
vertex (storing the exact point) and record its handle; either way append
the handle to the face's vertex list. -/
def ingestPointK [DecidableEq κ] (key : Point → κ) (st : IngestSt κ × List Nat)
    (p : Point) : IngestSt κ × List Nat :=
  match fmLookup (key p) st.1.vmap with
  | some existing_key => (st.1, st.2 ++ [existing_key])
  | none =>
    let r := st.1.mesh.add_vertex p none
    (⟨r.2, fmInsert (key p) r.1 st.1.vmap⟩, st.2 ++ [r.1])

/-- The body of the outer polygon loop of `Mesh::from_polygons`: skip
polygons with fewer than three points, otherwise ingest every point and
add the face (ignoring `add_face` failure, as the Rust code does). -/
def ingestPolygonK [DecidableEq κ] (key : Point → κ) (st : IngestSt κ)
    (polygon : List Point) : IngestSt κ :=
  if polygon.length < 3 then st
  else
    let r := polygon.foldl (ingestPointK key) (st, [])
    if 3 ≤ r.2.length then { r.1 with mesh := (r.1.mesh.add_face r.2 none).2 }
    else r.1

/-- `Mesh::from_polygons` for an arbitrary quantisation key function. -/
def from_polygonsK [DecidableEq κ] (key : Point → κ)
    (polygons : List (List Point)) : Mesh :=
  (polygons.foldl (ingestPolygonK key) ⟨Mesh.new, []⟩).mesh

/-- The model's exact-arithmetic quantisation key: each coordinate
divided by the precision, rounded, and multiplied back by the precision,
kept as the exact rational triple that the Rust format string renders
(see `IngestSt` for the two regimes where the rendered string's equality
differs from this triple's). -/
def quantKey (precision : ℚ) (p : Point) : ℚ × ℚ × ℚ :=
  ((rustRound (p.x / precision) : ℚ) * precision,
   (rustRound (p.y / precision) : ℚ) * precision,
   (rustRound (p.z / precision) : ℚ) * precision)

/-- Mirrors `Mesh::from_polygons` (default precision `1e-10`),
instantiated at the model's exact-arithmetic key. -/
def Mesh.from_polygons (polygons : List (List Point)) (precision : Option ℚ) :
    Mesh :=
  let prec := precision.getD (1 / 10 ^ 10)
  from_polygonsK (quantKey prec) polygons

/-- The meshes reachable from `Mesh::new` by the public mutation surface:
`add_vertex`, `add_face` and `clear` (and hence also every mesh produced
by `Mesh::from_polygons`, which is built from these). -/
inductive Reachable : Mesh → Prop
  | new : Reachable Mesh.new
  | add_vertex {m : Mesh} (p : Point) (k : Option Nat) :
      Reachable m → Reachable (m.add_vertex p k).2
  | add_face {m : Mesh} (vs : List Nat) (fk : Option Nat) :
      Reachable m → Reachable (m.add_face vs fk).2
  | clear {m : Mesh} : Reachable m → Reachable m.clear

/-! Lemmas about a single halfedge-update step (`addFaceEdge`). -/

theorem heLookup_entryOr (a b k : Nat) (he : List (Nat × List (Nat × Option Nat))) :
    heLookup a b (fmEntryOr k [] he) = heLookup a b he := by
  unfold heLookup
  by_cases hk : k = a
  · subst hk
    rw [fmLookup_entryOr_self]
    cases h : fmLookup k he with
    | none => simp [fmLookup]
    | some inner => simp
  · rw [fmLookup_entryOr_ne (fun h => hk h.symm)]

theorem fmLookup_u_after_ensure (u v : Nat) (he : List (Nat × List (Nat × Option Nat))) :
    fmLookup u (fmEntryOr v [] (fmEntryOr u [] he)) = some ((fmLookup u he).getD []) := by
  by_cases hvu : v = u
  · subst hvu
    rw [fmLookup_entryOr_self, fmLookup_entryOr_self]
    cases fmLookup v he <;> simp
  · rw [fmLookup_entryOr_ne (fun h => hvu h.symm), fmLookup_entryOr_self]

theorem fmLookup_v_after_ensure (u v : Nat) (hvu : v ≠ u)
    (he : List (Nat × List (Nat × Option Nat))) :
    fmLookup v (fmEntryOr v [] (fmEntryOr u [] he)) = some ((fmLookup v he).getD []) := by
  rw [fmLookup_entryOr_self, fmLookup_entryOr_ne hvu]

theorem addFaceEdge_lookup_uv (f u v : Nat) (he : List (Nat × List (Nat × Option Nat))) :
    heLookup u v (addFaceEdge f u v he) = some (some f) := by
  unfold addFaceEdge
  simp only [fmLookup_u_after_ensure, Option.getD_some]
  set he3 := fmInsert u (fmInsert v (some f) ((fmLookup u he).getD []))
      (fmEntryOr v [] (fmEntryOr u [] he)) with hhe3
  by_cases hb : fmContains u ((fmLookup v he3).getD []) = true
  · rw [if_pos hb]
    simp [heLookup, hhe3, fmLookup_insert_self]
  · rw [if_neg hb]
    by_cases hvu : v = u
    · exfalso
      apply hb
      rw [hhe3, hvu, fmLookup_insert_self]
      simp [fmContains, fmLookup_insert_self]
    · simp [heLookup, fmLookup_insert_ne (fun h => hvu h.symm), hhe3,
        fmLookup_insert_self]

theorem addFaceEdge_rev_isSome (f u v : Nat) (he : List (Nat × List (Nat × Option Nat))) :
    (heLookup v u (addFaceEdge f u v he)).isSome := by
  unfold addFaceEdge
  simp only [fmLookup_u_after_ensure, Option.getD_some]
  set he3 := fmInsert u (fmInsert v (some f) ((fmLookup u he).getD []))
      (fmEntryOr v [] (fmEntryOr u [] he)) with hhe3
  by_cases hb : fmContains u ((fmLookup v he3).getD []) = true
  · rw [if_pos hb]
    unfold fmContains at hb
    unfold heLookup
    cases hvl : fmLookup v he3 with
    | none => rw [hvl] at hb; simp [fmLookup] at hb
    | some inner => rw [hvl] at hb; simpa using hb
  · rw [if_neg hb]
    simp [heLookup, fmLookup_insert_self]

theorem heLookup_congr {a b : Nat} {X Y : List (Nat × List (Nat × Option Nat))}
    (h : fmLookup a X = fmLookup a Y) : heLookup a b X = heLookup a b Y := by
  unfold heLookup
  rw [h]

theorem heLookup_eq_getD (u b : Nat) (he : List (Nat × List (Nat × Option Nat))) :
    heLookup u b he = fmLookup b ((fmLookup u he).getD []) := by
  unfold heLookup
  cases fmLookup u he <;> simp [fmLookup]

theorem addFaceEdge_lookup_other (f u v a b : Nat) (hau : a ≠ u) (hav : a ≠ v)
    (he : List (Nat × List (Nat × Option Nat))) :
    heLookup a b (addFaceEdge f u v he) = heLookup a b he := by
  unfold addFaceEdge
  simp only [fmLookup_u_after_ensure, Option.getD_some]
  set he3 := fmInsert u (fmInsert v (some f) ((fmLookup u he).getD []))
      (fmEntryOr v [] (fmEntryOr u [] he)) with hhe3
  have h3 : fmLookup a he3 = fmLookup a he := by
    rw [hhe3, fmLookup_insert_ne hau, fmLookup_entryOr_ne hav, fmLookup_entryOr_ne hau]
  by_cases hb : fmContains u ((fmLookup v he3).getD []) = true
  · rw [if_pos hb]
    exact heLookup_congr h3
  · rw [if_neg hb]
    exact heLookup_congr (by rw [fmLookup_insert_ne hav, h3])

theorem addFaceEdge_cond_of_eq (f u : Nat) (he : List (Nat × List (Nat × Option Nat))) :
    fmContains u ((fmLookup u (fmInsert u (fmInsert u (some f) ((fmLookup u he).getD []))
      (fmEntryOr u [] (fmEntryOr u [] he)))).getD []) = true := by
  rw [fmLookup_insert_self]
  simp [fmContains, fmLookup_insert_self]

theorem addFaceEdge_lookup_u_other (f u v b : Nat) (hbv : b ≠ v)
    (he : List (Nat × List (Nat × Option Nat))) :
    heLookup u b (addFaceEdge f u v he) = heLookup u b he := by
  unfold addFaceEdge
  simp only [fmLookup_u_after_ensure, Option.getD_some]
  set he3 := fmInsert u (fmInsert v (some f) ((fmLookup u he).getD []))
      (fmEntryOr v [] (fmEntryOr u [] he)) with hhe3
  have h3 : fmLookup u he3 = some (fmInsert v (some f) ((fmLookup u he).getD [])) := by
    rw [hhe3, fmLookup_insert_self]
  by_cases hb : fmContains u ((fmLookup v he3).getD []) = true
  · rw [if_pos hb, heLookup_eq_getD, h3, Option.getD_some, fmLookup_insert_ne hbv,
      ← heLookup_eq_getD]
  · rw [if_neg hb]
    by_cases hvu : v = u
    · exfalso
      apply hb
      rw [hhe3, hvu]
      exact addFaceEdge_cond_of_eq f u he
    · rw [heLookup_eq_getD, fmLookup_insert_ne (fun h => hvu h.symm), h3,
        Option.getD_some, fmLookup_insert_ne hbv, ← heLookup_eq_getD]

theorem addFaceEdge_lookup_v_other (f u v b : Nat) (hvu : v ≠ u) (hbu : b ≠ u)
    (he : List (Nat × List (Nat × Option Nat))) :
    heLookup v b (addFaceEdge f u v he) = heLookup v b he := by
  unfold addFaceEdge
  simp only [fmLookup_u_after_ensure, Option.getD_some]
  set he3 := fmInsert u (fmInsert v (some f) ((fmLookup u he).getD []))
      (fmEntryOr v [] (fmEntryOr u [] he)) with hhe3
  have h3 : fmLookup v he3 = some ((fmLookup v he).getD []) := by
    rw [hhe3, fmLookup_insert_ne hvu, fmLookup_v_after_ensure u v hvu]
  by_cases hb : fmContains u ((fmLookup v he3).getD []) = true
  · rw [if_pos hb, heLookup_eq_getD, h3, Option.getD_some, ← heLookup_eq_getD]
  · rw [if_neg hb, heLookup_eq_getD, fmLookup_insert_self, Option.getD_some,
      fmLookup_insert_ne hbu, h3, Option.getD_some, ← heLookup_eq_getD]

theorem addFaceEdge_lookup_vu_of_some (f u v : Nat) (hvu : v ≠ u) (x : Option Nat)
    (he : List (Nat × List (Nat × Option Nat))) (hx : heLookup v u he = some x) :
    heLookup v u (addFaceEdge f u v he) = some x := by
  unfold addFaceEdge
  simp only [fmLookup_u_after_ensure, Option.getD_some]
  set he3 := fmInsert u (fmInsert v (some f) ((fmLookup u he).getD []))
      (fmEntryOr v [] (fmEntryOr u [] he)) with hhe3
  have h3 : fmLookup v he3 = some ((fmLookup v he).getD []) := by
    rw [hhe3, fmLookup_insert_ne hvu, fmLookup_v_after_ensure u v hvu]
  have hcond : fmContains u ((fmLookup v he3).getD []) = true := by
    rw [h3, Option.getD_some]
    unfold fmContains
    rw [← heLookup_eq_getD, hx]
    rfl
  rw [if_pos hcond, heLookup_eq_getD, h3, Option.getD_some, ← heLookup_eq_getD, hx]

theorem addFaceEdge_preserve (f u v a b : Nat) (x : Option Nat)
    (he : List (Nat × List (Nat × Option Nat))) (hx : heLookup a b he = some x) :
    heLookup a b (addFaceEdge f u v he) = some x ∨
    heLookup a b (addFaceEdge f u v he) = some (some f) := by
  by_cases hau : a = u
  · subst hau
    by_cases hbv : b = v
    · subst hbv
      exact Or.inr (addFaceEdge_lookup_uv f a b he)
    · exact Or.inl (by rw [addFaceEdge_lookup_u_other f a v b hbv, hx])
  · by_cases hav : a = v
    · subst hav
      by_cases hbu : b = u
      · subst hbu
        exact Or.inl (addFaceEdge_lookup_vu_of_some f b a hau x he hx)
      · exact Or.inl (by rw [addFaceEdge_lookup_v_other f u a b hau hbu, hx])
    · exact Or.inl (by rw [addFaceEdge_lookup_other f u v a b hau hav, hx])

theorem mem_fmKeys_he3 {u v a : Nat} {X : List (Nat × Option Nat)}
    {he : List (Nat × List (Nat × Option Nat))}
    (h : a ∈ fmKeys (fmInsert u X (fmEntryOr v [] (fmEntryOr u [] he)))) :
    a = u ∨ a = v ∨ a ∈ fmKeys he := by
  rcases (mem_fmKeys_insert a u _ _).mp h with h2 | h2
  · exact Or.inl h2
  rcases mem_fmKeys_entryOr h2 with h3 | h3
  · exact Or.inr (Or.inl h3)
  rcases mem_fmKeys_entryOr h3 with h4 | h4
  · exact Or.inl h4
  · exact Or.inr (Or.inr h4)

theorem mem_fmKeys_addFaceEdge {f u v a : Nat}
    {he : List (Nat × List (Nat × Option Nat))}
    (h : a ∈ fmKeys (addFaceEdge f u v he)) : a = u ∨ a = v ∨ a ∈ fmKeys he := by
  unfold addFaceEdge at h
  simp only [Option.getD_some] at h
  split at h
  · exact mem_fmKeys_he3 h
  · rcases (mem_fmKeys_insert a v _ _).mp h with h2 | h2
    · exact Or.inr (Or.inl h2)
    · exact mem_fmKeys_he3 h2

/-! Lemmas about the folded halfedge-update loop (`addFaceEdges`). -/

theorem addFaceEdges_cons (f : Nat) (p : Nat × Nat) (t : List (Nat × Nat))
    (he : List (Nat × List (Nat × Option Nat))) :
    addFaceEdges f (p :: t) he = addFaceEdges f t (addFaceEdge f p.1 p.2 he) := rfl

theorem addFaceEdges_preserve (f : Nat) (pairs : List (Nat × Nat)) (a b : Nat)
    (x : Option Nat) (he : List (Nat × List (Nat × Option Nat)))
    (hx : heLookup a b he = some x) :
    heLookup a b (addFaceEdges f pairs he) = some x ∨
    heLookup a b (addFaceEdges f pairs he) = some (some f) := by
  induction pairs generalizing he x with
  | nil => exact Or.inl hx
  | cons p t ih =>
    rw [addFaceEdges_cons]
    rcases addFaceEdge_preserve f p.1 p.2 a b x he hx with h | h
    · exact ih _ _ h
    · rcases ih _ _ h with h2 | h2
      · exact Or.inr h2
      · exact Or.inr h2

theorem addFaceEdges_isSome (f : Nat) (pairs : List (Nat × Nat)) (a b : Nat)
    (he : List (Nat × List (Nat × Option Nat))) (hx : (heLookup a b he).isSome) :
    (heLookup a b (addFaceEdges f pairs he)).isSome := by
  obtain ⟨x, hx2⟩ := Option.isSome_iff_exists.mp hx
  rcases addFaceEdges_preserve f pairs a b x he hx2 with h | h <;> simp [h]

theorem addFaceEdges_keep_f (f : Nat) (pairs : List (Nat × Nat)) (a b : Nat)
    (he : List (Nat × List (Nat × Option Nat)))
    (hx : heLookup a b he = some (some f)) :
    heLookup a b (addFaceEdges f pairs he) = some (some f) := by
  rcases addFaceEdges_preserve f pairs a b (some f) he hx with h | h <;> exact h

theorem addFaceEdges_mem (f : Nat) (pairs : List (Nat × Nat)) {u v : Nat}
    (he : List (Nat × List (Nat × Option Nat))) (hmem : (u, v) ∈ pairs) :
    heLookup u v (addFaceEdges f pairs he) = some (some f) ∧
    (heLookup v u (addFaceEdges f pairs he)).isSome := by
  induction pairs generalizing he with
  | nil => cases hmem
  | cons p t ih =>
    rw [addFaceEdges_cons]
    rcases List.mem_cons.mp hmem with h | h
    · subst h
      refine ⟨addFaceEdges_keep_f f t u v _ (addFaceEdge_lookup_uv f u v he), ?_⟩
      exact addFaceEdges_isSome f t v u _ (addFaceEdge_rev_isSome f u v he)
    · exact ih _ h

theorem mem_fmKeys_addFaceEdges {f : Nat} {pairs : List (Nat × Nat)} {a : Nat}
    {he : List (Nat × List (Nat × Option Nat))}
    (h : a ∈ fmKeys (addFaceEdges f pairs he)) :
    (∃ p ∈ pairs, a = p.1 ∨ a = p.2) ∨ a ∈ fmKeys he := by
  induction pairs generalizing he with
  | nil => exact Or.inr h
  | cons p t ih =>
    rw [addFaceEdges_cons] at h
    rcases ih h with h2 | h2
    · obtain ⟨q, hq, hq2⟩ := h2
      exact Or.inl ⟨q, List.mem_cons_of_mem _ hq, hq2⟩
    · rcases mem_fmKeys_addFaceEdge h2 with h3 | h3 | h3
      · exact Or.inl ⟨p, List.mem_cons_self p t, Or.inl h3⟩
      · exact Or.inl ⟨p, List.mem_cons_self p t, Or.inr h3⟩
      · exact Or.inr h3

theorem getD_mem_of_lt {vs : List Nat} {i : Nat} (hi : i < vs.length) :
    vs.getD i 0 ∈ vs := by
  rw [List.getD_eq_getElem?_getD, List.getElem?_eq_getElem hi]
  exact List.getElem_mem hi

theorem cyclePairs_mem (vs : List Nat) (i : Nat) (hi : i < vs.length) :
    (vs.getD i 0, vs.getD ((i + 1) % vs.length) 0) ∈ cyclePairs vs := by
  unfold cyclePairs
  exact List.mem_map.mpr ⟨i, List.mem_range.mpr hi, rfl⟩

theorem cyclePairs_comp_mem {vs : List Nat} {p : Nat × Nat}
    (hp : p ∈ cyclePairs vs) : p.1 ∈ vs ∧ p.2 ∈ vs := by
  unfold cyclePairs at hp
  obtain ⟨i, hi, rfl⟩ := List.mem_map.mp hp
  have hi2 := List.mem_range.mp hi
  have hlen : 0 < vs.length := Nat.lt_of_le_of_lt (Nat.zero_le i) hi2
  exact ⟨getD_mem_of_lt hi2, getD_mem_of_lt (Nat.mod_lt _ hlen)⟩

/-! The mesh invariants maintained by the topology builder. -/

/-- Invariants of every reachable mesh: vertex keys stay below the
allocation counter, halfedge outer keys are vertex keys, and every stored
face cycle has all its directed edges present in the halfedge table, the
forward direction owned by some stored face. -/
structure MeshInv (m : Mesh) : Prop where
  invV : ∀ k ∈ fmKeys m.vertex, k < m.max_vertex
  invHe : ∀ k ∈ fmKeys m.halfedge, k ∈ fmKeys m.vertex
  invC1 : ∀ fk c, fmLookup fk m.face = some c →
    ∀ i, i < c.length →
      (∃ g, heLookup (c.getD i 0) (c.getD ((i + 1) % c.length) 0) m.halfedge
          = some (some g) ∧ g ∈ fmKeys m.face) ∧
      (heLookup (c.getD ((i + 1) % c.length) 0) (c.getD i 0) m.halfedge).isSome

theorem meshInv_new : MeshInv Mesh.new := by
  constructor
  · intro k hk; simp [Mesh.new, fmKeys] at hk
  · intro k hk; simp [Mesh.new, fmKeys] at hk
  · intro fk c h; simp [Mesh.new, fmLookup] at h

theorem meshInv_clear {m : Mesh} (_ : MeshInv m) : MeshInv m.clear := by
  constructor
  · intro k hk; simp [Mesh.clear, fmKeys] at hk
  · intro k hk; simp [Mesh.clear, fmKeys] at hk
  · intro fk c h; simp [Mesh.clear, fmLookup] at h

theorem add_vertex_vertex (m : Mesh) (p : Point) (k : Option Nat) :
    (m.add_vertex p k).2.vertex
      = fmInsert (m.add_vertex p k).1 (VertexData.new p) m.vertex := by
  cases k <;> rfl

theorem add_vertex_halfedge (m : Mesh) (p : Point) (k : Option Nat) :
    (m.add_vertex p k).2.halfedge = fmEntryOr (m.add_vertex p k).1 [] m.halfedge := by
  cases k <;> rfl

theorem add_vertex_face (m : Mesh) (p : Point) (k : Option Nat) :
    (m.add_vertex p k).2.face = m.face := by
  cases k <;> rfl

theorem add_vertex_key_lt (m : Mesh) (p : Point) (k : Option Nat) :
    (m.add_vertex p k).1 < (m.add_vertex p k).2.max_vertex := by
  cases k with
  | none => simp [Mesh.add_vertex]
  | some k2 =>
    simp only [Mesh.add_vertex]
    by_cases h : m.max_vertex ≤ k2
    · rw [if_pos h]; omega
    · rw [if_neg h]; omega

theorem add_vertex_max_le (m : Mesh) (p : Point) (k : Option Nat) :
    m.max_vertex ≤ (m.add_vertex p k).2.max_vertex := by
  cases k with
  | none => simp [Mesh.add_vertex]; omega
  | some k2 =>
    simp only [Mesh.add_vertex]
    by_cases h : m.max_vertex ≤ k2
    · rw [if_pos h]; omega
    · rw [if_neg h]

theorem meshInv_add_vertex {m : Mesh} (hm : MeshInv m) (p : Point) (k : Option Nat) :
    MeshInv (m.add_vertex p k).2 := by
  constructor
  · intro j hj
    rw [add_vertex_vertex] at hj
    rcases (mem_fmKeys_insert j _ _ _).mp hj with h | h
    · subst h; exact add_vertex_key_lt m p k
    · exact Nat.lt_of_lt_of_le (hm.invV j h) (add_vertex_max_le m p k)
  · intro j hj
    rw [add_vertex_halfedge] at hj
    rw [add_vertex_vertex, mem_fmKeys_insert]
    rcases mem_fmKeys_entryOr hj with h | h
    · exact Or.inl h
    · exact Or.inr (hm.invHe j h)
  · intro fk c hc i hi
    rw [add_vertex_face] at hc
    obtain ⟨⟨g, hg1, hg2⟩, hrev⟩ := hm.invC1 fk c hc i hi
    rw [add_vertex_halfedge, add_vertex_face]
    refine ⟨⟨g, ?_, hg2⟩, ?_⟩
    · rw [heLookup_entryOr]; exact hg1
    · rw [heLookup_entryOr]; exact hrev

theorem add_face_result (m : Mesh) (vs : List Nat) (fk : Option Nat) :
    m.add_face vs fk = (none, m) ∨
    (3 ≤ vs.length ∧ vs.all (fun v => fmContains v m.vertex) = true ∧ vs.Nodup ∧
     ∃ face_key mf,
       (m.add_face vs fk).1 = some face_key ∧
       (m.add_face vs fk).2 =
         { m with face := fmInsert face_key vs m.face,
                  halfedge := addFaceEdges face_key (cyclePairs vs) m.halfedge,
                  max_face := mf }) := by
  unfold Mesh.add_face
  by_cases h1 : vs.length < 3
  · rw [if_pos h1]; exact Or.inl rfl
  rw [if_neg h1]
  by_cases h2 : vs.all (fun v => fmContains v m.vertex) = true
  · rw [if_neg (not_not_intro h2)]
    by_cases h3 : vs.Nodup
    · rw [if_neg (not_not_intro h3)]
      cases fk with
      | none =>
        exact Or.inr ⟨Nat.le_of_not_lt h1, h2, h3, m.max_face + 1, _, rfl, rfl⟩
      | some k2 =>
        exact Or.inr ⟨Nat.le_of_not_lt h1, h2, h3, k2, _, rfl, rfl⟩
    · rw [if_pos h3]; exact Or.inl rfl
  · rw [if_pos h2]; exact Or.inl rfl

theorem meshInv_add_face {m : Mesh} (hm : MeshInv m) (vs : List Nat)
    (fk : Option Nat) : MeshInv (m.add_face vs fk).2 := by
  rcases add_face_result m vs fk with h | ⟨h3, hall, hnd, fkey, mf, hres1, hres⟩
  · rw [h]; exact hm
  have hface : (m.add_face vs fk).2.face = fmInsert fkey vs m.face := by rw [hres]
  have hhe : (m.add_face vs fk).2.halfedge
      = addFaceEdges fkey (cyclePairs vs) m.halfedge := by rw [hres]
  have hver : (m.add_face vs fk).2.vertex = m.vertex := by rw [hres]
  have hmax : (m.add_face vs fk).2.max_vertex = m.max_vertex := by rw [hres]
  constructor
  · intro j hj
    rw [hver] at hj
    rw [hmax]
    exact hm.invV j hj
  · intro j hj
    rw [hhe] at hj
    rw [hver]
    rcases mem_fmKeys_addFaceEdges hj with ⟨p, hp, hp2⟩ | hj2
    · have hcomp := cyclePairs_comp_mem hp
      have hjvs : j ∈ vs := by
        rcases hp2 with h | h
        · rw [h]; exact hcomp.1
        · rw [h]; exact hcomp.2
      have hcj := List.all_eq_true.mp hall j hjvs
      rw [mem_fmKeys_iff]
      simpa [fmContains] using hcj
    · exact hm.invHe j hj2
  · intro fk2 c hc i hi
    rw [hface] at hc
    rw [hhe, hface]
    by_cases hfk : fk2 = fkey
    · subst hfk
      rw [fmLookup_insert_self] at hc
      have hvc : vs = c := by injection hc
      subst hvc
      have hmem := cyclePairs_mem vs i hi
      have hres2 := addFaceEdges_mem fk2 (cyclePairs vs) m.halfedge hmem
      refine ⟨⟨fk2, hres2.1, ?_⟩, hres2.2⟩
      rw [mem_fmKeys_insert]
      exact Or.inl rfl
    · rw [fmLookup_insert_ne hfk] at hc
      obtain ⟨⟨g, hg1, hg2⟩, hrev⟩ := hm.invC1 fk2 c hc i hi
      constructor
      · rcases addFaceEdges_preserve fkey (cyclePairs vs) _ _ (some g)
            m.halfedge hg1 with h | h
        · exact ⟨g, h, (mem_fmKeys_insert g fkey vs m.face).mpr (Or.inr hg2)⟩
        · exact ⟨fkey, h, (mem_fmKeys_insert fkey fkey vs m.face).mpr (Or.inl rfl)⟩
      · exact addFaceEdges_isSome fkey (cyclePairs vs) _ _ m.halfedge hrev

theorem reachable_inv {m : Mesh} (h : Reachable m) : MeshInv m := by
  induction h with
  | new => exact meshInv_new
  | add_vertex p k _ ih => exact meshInv_add_vertex ih p k
  | add_face vs fk _ ih => exact meshInv_add_face ih vs fk
  | clear _ ih => exact meshInv_clear ih

/-! The square-root based geometry of `src/geometry/vector.rs` and the
geometry query engine of `src/geometry/mesh.rs`, modelled over the real
numbers (each `f64` value is interpreted exactly; arithmetic is exact). -/

noncomputable section

/-- Mirrors `Vector` from `src/geometry/vector.rs` (the `data` metadata
field is omitted, see the header; the repository compares vectors by
coordinates only). -/
structure Vector where
  x : ℝ
  y : ℝ
  z : ℝ

/-- Mirrors `Vector::length`:
`(x.powi(2) + y.powi(2) + z.powi(2)).sqrt()`. -/
def Vector.length (v : Vector) : ℝ :=
  Real.sqrt (v.x ^ 2 + v.y ^ 2 + v.z ^ 2)

/-- Mirrors `Vector::cross`. -/
def Vector.cross (a b : Vector) : Vector :=
  ⟨a.y * b.z - a.z * b.y, a.z * b.x - a.x * b.z, a.x * b.y - a.y * b.x⟩

/-- Mirrors `Vector::unitize`: divides the components by the length when
the length is positive, otherwise leaves them unchanged.  The Rust method
mutates in place and returns a success flag that every mesh call site
ignores; the model returns the updated vector. -/
def Vector.unitize (v : Vector) : Vector :=
  if 0 < v.length then ⟨v.x / v.length, v.y / v.length, v.z / v.length⟩ else v

/-- The edge vector `Vector::new(p1.x - p0.x, p1.y - p0.y, p1.z - p0.z)`
built inside `face_normal` and `face_area`, with the stored rational
coordinates cast to the reals. -/
def edgeVec (p0 p1 : Point) : Vector :=
  ⟨(p1.x : ℝ) - (p0.x : ℝ), (p1.y : ℝ) - (p0.y : ℝ), (p1.z : ℝ) - (p0.z : ℝ)⟩

/-- Mirrors `Mesh::face_normal`: the unitized cross product of the edges
from vertex 0 to vertices 1 and 2. -/
def Mesh.face_normal (m : Mesh) (face_key : Nat) : Option Vector :=
  match fmLookup face_key m.face with
  | none => none
  | some vertices =>
    if vertices.length < 3 then none
    else
      match m.vertex_position (vertices.getD 0 0),
            m.vertex_position (vertices.getD 1 0),
            m.vertex_position (vertices.getD 2 0) with
      | some p0, some p1, some p2 =>
          some ((edgeVec p0 p1).cross (edgeVec p0 p2)).unitize
      | _, _, _ => none

/-- The body of the triangulation loop of `Mesh::face_area` for loop
index `i = j + 1`: add `cross.length() * 0.5` of the fan triangle
`(0, j + 1, j + 2)`; a missing vertex position makes the result `None`
(mirroring the early return of the `?` operator). -/
def faStep (m : Mesh) (vertices : List Nat) (acc : Option ℝ) (j : Nat) : Option ℝ :=
  match acc, m.vertex_position (vertices.getD 0 0),
        m.vertex_position (vertices.getD (j + 1) 0),
        m.vertex_position (vertices.getD (j + 2) 0) with
  | some a, some p0, some p1, some p2 =>
      some (a + ((edgeVec p0 p1).cross (edgeVec p0 p2)).length * (1 / 2))
  | _, _, _, _ => none

/-- Mirrors `Mesh::face_area`: fan triangulation from vertex 0, summing
`cross.length() * 0.5` over the triangles `(0, i, i + 1)` for
`i in 1..len - 1`. -/
def Mesh.face_area (m : Mesh) (face_key : Nat) : Option ℝ :=
  match fmLookup face_key m.face with
  | none => none
  | some vertices =>
    if vertices.length < 3 then none
    else (List.range (vertices.length - 2)).foldl (faStep m vertices) (some 0)

/-- One iteration of the accumulation loop of `Mesh::vertex_normal`: add
the face normal weighted by the face area (`unwrap_or(0.0)`) and add the
area to the running total; faces without a normal are skipped. -/
def vnStep (m : Mesh) (acc : Vector × ℝ) (face_key : Nat) : Vector × ℝ :=
  match m.face_normal face_key with
  | some fn =>
    let area := (m.face_area face_key).getD 0
    (⟨acc.1.x + fn.x * area, acc.1.y + fn.y * area, acc.1.z + fn.z * area⟩,
      acc.2 + area)
  | none => acc

/-- The accumulated (weighted normal sum, total area) pair of
`Mesh::vertex_normal` over the incident faces of a vertex. -/
def vnAccum (m : Mesh) (vertex_key : Nat) : Vector × ℝ :=
  (m.vertex_faces vertex_key).foldl (vnStep m) (⟨0, 0, 0⟩, 0)

/-- Mirrors `Mesh::vertex_normal`: `None` when the vertex has no incident
face; otherwise accumulate area-weighted face normals, and when the total
area is positive divide by it and unitize, else return `None`. -/
def Mesh.vertex_normal (m : Mesh) (vertex_key : Nat) : Option Vector :=
  let faces := m.vertex_faces vertex_key
  if faces.isEmpty then none
  else
    let ns := vnAccum m vertex_key
    if 0 < ns.2 then
      some (Vector.unitize ⟨ns.1.x / ns.2, ns.1.y / ns.2, ns.1.z / ns.2⟩)
    else none

/-- Written from the specification text for claim C2/C9 comparison: the
cross product of the edge from vertex 0 to vertex 1 with the edge from
vertex 0 to vertex 2 of a stored face. -/
def specFaceCross (m : Mesh) (face_key : Nat) : Option Vector :=
  match fmLookup face_key m.face with
  | none => none
  | some c =>
    match m.vertex_position (c.getD 0 0), m.vertex_position (c.getD 1 0),
          m.vertex_position (c.getD 2 0) with
    | some p0, some p1, some p2 => some ((edgeVec p0 p1).cross (edgeVec p0 p2))
    | _, _, _ => none

/-- Written from the specification text of claim C9: the sum, over the fan
triangles `(v0, vi, v(i+1))` for `i` from `1` to `n - 2`, of half the
magnitude of the cross product of the triangle edges from `v0`. -/
def specFanArea (ps : List Point) : ℝ :=
  ((List.range (ps.length - 2)).map
    (fun j =>
      ((edgeVec (ps.getD 0 ⟨0, 0, 0⟩) (ps.getD (j + 1) ⟨0, 0, 0⟩)).cross
        (edgeVec (ps.getD 0 ⟨0, 0, 0⟩) (ps.getD (j + 2) ⟨0, 0, 0⟩))).length
        * (1 / 2))).sum

/-- The stored positions of a vertex-handle list (used to state claim C9;
under the claim hypotheses every lookup succeeds and the default is
irrelevant). -/
def positionsOf (m : Mesh) (c : List Nat) : List Point :=
  c.map (fun v => (m.vertex_position v).getD ⟨0, 0, 0⟩)

end

/-! Concrete example meshes used by witnesses and counterexamples. -/

/-- A triangle mesh built through the public API: three auto-allocated
vertices (handles 1, 3, 5) and one face (handle 1). -/
def triMesh : Mesh :=
  ((((Mesh.new.add_vertex ⟨0, 0, 0⟩ none).2.add_vertex ⟨1, 0, 0⟩ none).2.add_vertex
    ⟨0, 1, 0⟩ none).2.add_face [1, 3, 5] none).2

theorem triMesh_reachable : Reachable triMesh :=
  Reachable.add_face _ _ (Reachable.add_vertex _ _ (Reachable.add_vertex _ _
    (Reachable.add_vertex _ _ Reachable.new)))

/-- The triangle mesh with the same face cycle added a second time (as
face 3), which overwrites the directed halfedge entries of face 1. -/
def dupFaceMesh : Mesh := (triMesh.add_face [1, 3, 5] none).2

theorem dupFaceMesh_reachable : Reachable dupFaceMesh :=
  Reachable.add_face _ _ triMesh_reachable

/-- A degenerate mesh: three collinear vertices and one face, whose
corner cross product is the zero vector. -/
def colMesh : Mesh :=
  ((((Mesh.new.add_vertex ⟨0, 0, 0⟩ none).2.add_vertex ⟨1, 0, 0⟩ none).2.add_vertex
    ⟨2, 0, 0⟩ none).2.add_face [1, 3, 5] none).2

theorem colMesh_reachable : Reachable colMesh :=
  Reachable.add_face _ _ (Reachable.add_vertex _ _ (Reachable.add_vertex _ _
    (Reachable.add_vertex _ _ Reachable.new)))

/-- The triangle mesh with a second, oppositely wound face over the same
vertices: the two unit face normals cancel in the area-weighted sum. -/
def oppMesh : Mesh := (triMesh.add_face [1, 5, 3] none).2

theorem oppMesh_reachable : Reachable oppMesh :=
  Reachable.add_face _ _ triMesh_reachable

/-- Two triangles sharing an edge given by coordinate-duplicated corner
points; the first corner of the first triangle is `1e-11` off the origin,
which still quantises to the origin key at the default precision. -/
def soupMesh : Mesh :=
  Mesh.from_polygons
    [[⟨1 / 10 ^ 11, 0, 0⟩, ⟨1, 0, 0⟩, ⟨0, 1, 0⟩],
     [⟨0, 0, 0⟩, ⟨0, 1, 0⟩, ⟨1, 1, 0⟩]] none

/-! Claim C4. -/

/-- C4 (confirmed): `add_face` returns `None` exactly when the vertex
list has fewer than three entries, references a vertex handle absent from
the vertex store, or contains a duplicate handle; in every other case it
returns a face handle. -/
theorem c4_add_face_none_iff (m : Mesh) (vs : List Nat) (fkey : Option Nat) :
    (m.add_face vs fkey).1 = none ↔
      (vs.length < 3 ∨ (∃ v ∈ vs, fmLookup v m.vertex = none) ∨ ¬ vs.Nodup) := by
  unfold Mesh.add_face
  by_cases h1 : vs.length < 3
  · rw [if_pos h1]
    simp [h1]
  rw [if_neg h1]
  by_cases h2 : vs.all (fun v => fmContains v m.vertex) = true
  · rw [if_neg (not_not_intro h2)]
    by_cases h3 : vs.Nodup
    · rw [if_neg (not_not_intro h3)]
      have hmid : ¬ ∃ v ∈ vs, fmLookup v m.vertex = none := by
        rintro ⟨v2, hv2, hnone⟩
        have hcv := List.all_eq_true.mp h2 v2 hv2
        simp [fmContains, hnone] at hcv
      cases fkey <;> simp [h1, h3, hmid]
    · rw [if_pos h3]
      simp [h3]
  · rw [if_pos h2]
    have hex : ∃ v ∈ vs, fmLookup v m.vertex = none := by
      by_contra hcon
      push_neg at hcon
      refine h2 (List.all_eq_true.mpr fun v hv => ?_)
      cases hl : fmLookup v m.vertex with
      | none => exact absurd hl (hcon v hv)
      | some x => simp [fmContains, hl]
    simp [hex]

/-! Claim C5. -/

/-- C5 (confirmed): whenever `add_face` returns `None`, the entire mesh
state — vertex store, face store, halfedge table, attribute maps and both
handle counters — is unchanged. -/
theorem c5_add_face_none_no_mutation (m : Mesh) (vs : List Nat)
    (fkey : Option Nat) (h : (m.add_face vs fkey).1 = none) :
    (m.add_face vs fkey).2 = m := by
  rcases add_face_result m vs fkey with h2 | ⟨_, _, _, fk2, mf, hres1, _⟩
  · rw [h2]
  · rw [hres1] at h
    exact absurd h (by simp)

theorem c5_witness :
    (Mesh.new.add_face [] none).1 = none ∧ (Mesh.new.add_face [] none).2 = Mesh.new :=
  ⟨by decide, c5_add_face_none_no_mutation Mesh.new [] none (by decide)⟩

/-! Claim C7. -/

/-- C7 counterexample: on a fresh mesh the first two auto-allocated
vertex handles are 1 and 3, while handles 0 and 2 are never used — the
allocator does not return the smallest unused non-negative integer, and
consecutive auto-allocations leave gaps. -/
theorem c7_counterexample :
    (Mesh.new.add_vertex ⟨0, 0, 0⟩ none).1 = 1 ∧
    ((Mesh.new.add_vertex ⟨0, 0, 0⟩ none).2.add_vertex ⟨0, 0, 0⟩ none).1 = 3 ∧
    fmLookup 0 ((Mesh.new.add_vertex ⟨0, 0, 0⟩ none).2.add_vertex
      ⟨0, 0, 0⟩ none).2.vertex = none ∧
    fmLookup 2 ((Mesh.new.add_vertex ⟨0, 0, 0⟩ none).2.add_vertex
      ⟨0, 0, 0⟩ none).2.vertex = none := by
  refine ⟨by decide, by decide, by decide, by decide⟩

/-- C7 amended: an auto-allocated handle is one greater than the current
counter (never colliding with any handle present in a reachable mesh),
and the call leaves the counter at the old counter plus two — so handles
are strictly increasing and fresh, but are not the smallest unused
integer, and consecutive auto-allocations skip a value. -/
theorem c7_amended (m : Mesh) (p : Point) (hm : Reachable m) :
    (m.add_vertex p none).1 = m.max_vertex + 1 ∧
    (m.add_vertex p none).2.max_vertex = m.max_vertex + 2 ∧
    (m.add_vertex p none).1 ∉ fmKeys m.vertex := by
  refine ⟨rfl, by simp [Mesh.add_vertex], ?_⟩
  intro hmem
  have hlt := (reachable_inv hm).invV _ hmem
  have h1 : (m.add_vertex p none).1 = m.max_vertex + 1 := rfl
  rw [h1] at hlt
  omega

theorem c7_witness :
    (Mesh.new.add_vertex ⟨0, 0, 0⟩ none).1 = Mesh.new.max_vertex + 1 ∧
    (Mesh.new.add_vertex ⟨0, 0, 0⟩ none).2.max_vertex = Mesh.new.max_vertex + 2 ∧
    (Mesh.new.add_vertex ⟨0, 0, 0⟩ none).1 ∉ fmKeys Mesh.new.vertex :=
  c7_amended Mesh.new ⟨0, 0, 0⟩ Reachable.new

/-! Claim C8. -/

/-- C8 (confirmed): in any reachable mesh — built by any interleaving of
auto-allocated and explicitly keyed insertions — an auto-allocated vertex
handle differs from every handle already present, and an explicit
insertion always leaves the counter at `max(counter, handle + 1)`. -/
theorem c8_auto_never_collides (m : Mesh) (p : Point) (hm : Reachable m) :
    (∀ k ∈ fmKeys m.vertex, (m.add_vertex p none).1 ≠ k) ∧
    (∀ (q : Point) (k : Nat),
      (m.add_vertex q (some k)).2.max_vertex = max m.max_vertex (k + 1)) := by
  constructor
  · intro k hk heq
    have hlt := (reachable_inv hm).invV k hk
    have h1 : (m.add_vertex p none).1 = m.max_vertex + 1 := rfl
    rw [heq] at h1
    omega
  · intro q k
    simp only [Mesh.add_vertex]
    by_cases h : m.max_vertex ≤ k
    · rw [if_pos h]; omega
    · rw [if_neg h]; omega

theorem c8_witness :
    (∀ k ∈ fmKeys (Mesh.new.add_vertex ⟨0, 0, 0⟩ (some 7)).2.vertex,
      ((Mesh.new.add_vertex ⟨0, 0, 0⟩ (some 7)).2.add_vertex ⟨1, 1, 1⟩ none).1 ≠ k) ∧
    (∀ (q : Point) (k : Nat),
      (((Mesh.new.add_vertex ⟨0, 0, 0⟩ (some 7)).2.add_vertex q (some k)).2.max_vertex
        = max (Mesh.new.add_vertex ⟨0, 0, 0⟩ (some 7)).2.max_vertex (k + 1))) :=
  c8_auto_never_collides (Mesh.new.add_vertex ⟨0, 0, 0⟩ (some 7)).2 ⟨1, 1, 1⟩
    (Reachable.add_vertex _ _ Reachable.new)

/-! Claim C10. -/

/-- C10 (confirmed): a vertex handle absent from a reachable mesh reports
`is_vertex_on_boundary = false` and an empty neighbor list, exactly like
a freshly auto-allocated isolated vertex; neither query signals the
unknown handle. -/
theorem c10_unknown_handle_queries (m : Mesh) (v : Nat) (hm : Reachable m)
    (hv : fmLookup v m.vertex = none) :
    (m.is_vertex_on_boundary v = false ∧ m.vertex_neighbors v = []) ∧
    ∀ p : Point,
      (m.add_vertex p none).2.is_vertex_on_boundary (m.add_vertex p none).1 = false ∧
      (m.add_vertex p none).2.vertex_neighbors (m.add_vertex p none).1 = [] := by
  have hinv := reachable_inv hm
  have hhe : fmLookup v m.halfedge = none := by
    cases hl : fmLookup v m.halfedge with
    | none => rfl
    | some inner =>
      have hmem : v ∈ fmKeys m.halfedge := by
        rw [mem_fmKeys_iff, hl]; rfl
      have hver := hinv.invHe v hmem
      rw [mem_fmKeys_iff, hv] at hver
      simp at hver
  refine ⟨⟨?_, ?_⟩, ?_⟩
  · unfold Mesh.is_vertex_on_boundary
    rw [hhe]
  · unfold Mesh.vertex_neighbors
    rw [hhe]
  · intro p
    have h1 : (m.add_vertex p none).1 = m.max_vertex + 1 := rfl
    have hknotin : fmLookup (m.add_vertex p none).1 m.halfedge = none := by
      cases hl : fmLookup (m.add_vertex p none).1 m.halfedge with
      | none => rfl
      | some inner =>
        have hmem : (m.add_vertex p none).1 ∈ fmKeys m.halfedge := by
          rw [mem_fmKeys_iff, hl]; rfl
        have hlt := hinv.invV _ (hinv.invHe _ hmem)
        rw [h1] at hlt
        omega
    have hlook : fmLookup (m.add_vertex p none).1 (m.add_vertex p none).2.halfedge
        = some [] := by
      rw [add_vertex_halfedge, fmLookup_entryOr_self, hknotin]
      rfl
    constructor
    · unfold Mesh.is_vertex_on_boundary
      rw [hlook]
      rfl
    · unfold Mesh.vertex_neighbors
      rw [hlook]
      rfl

theorem c10_witness :
    ((triMesh.is_vertex_on_boundary 999 = false ∧ triMesh.vertex_neighbors 999 = []) ∧
     ∀ p : Point,
       (triMesh.add_vertex p none).2.is_vertex_on_boundary
         (triMesh.add_vertex p none).1 = false ∧
       (triMesh.add_vertex p none).2.vertex_neighbors
         (triMesh.add_vertex p none).1 = []) :=
  c10_unknown_handle_queries triMesh 999 triMesh_reachable (by decide)

/-! Claim C1. -/

/-- C1 counterexample: after adding the same vertex cycle twice, face 1
is still stored with cycle `[1, 3, 5]`, but the halfedge entry `(1, 3)`
holds `Some 3` (the later face), not `Some 1` — the claim that every
stored face owns its directed edges fails under last-writer-wins
overwriting. -/
theorem c1_counterexample :
    Reachable dupFaceMesh ∧
    fmLookup 1 dupFaceMesh.face = some [1, 3, 5] ∧
    heLookup 1 3 dupFaceMesh.halfedge = some (some 3) ∧
    heLookup 1 3 dupFaceMesh.halfedge ≠ some (some 1) :=
  ⟨dupFaceMesh_reachable, by decide, by decide, by decide⟩

/-- C1 amended: in every reachable mesh, each directed edge `(vi, vi+1)`
of a stored face cycle is present in the halfedge table with value
`Some g` for some stored face `g` (the most recent claimant of that
directed edge — equal to the face itself immediately after the
`add_face` that stored it, as the second conjunct shows), and the
reverse entry `(vi+1, vi)` exists, possibly with value `None`. -/
theorem c1_amended :
    (∀ m : Mesh, Reachable m → ∀ fk c, fmLookup fk m.face = some c →
      ∀ i, i < c.length →
        (∃ g, heLookup (c.getD i 0) (c.getD ((i + 1) % c.length) 0) m.halfedge
            = some (some g) ∧ g ∈ fmKeys m.face) ∧
        (heLookup (c.getD ((i + 1) % c.length) 0) (c.getD i 0) m.halfedge).isSome) ∧
    (∀ (m : Mesh) (vs : List Nat) (fkey : Option Nat) (fk2 : Nat),
      (m.add_face vs fkey).1 = some fk2 → ∀ i, i < vs.length →
        heLookup (vs.getD i 0) (vs.getD ((i + 1) % vs.length) 0)
          (m.add_face vs fkey).2.halfedge = some (some fk2)) := by
  constructor
  · intro m hm fk c hc i hi
    exact (reachable_inv hm).invC1 fk c hc i hi
  · intro m vs fkey fk2 hres i hi
    rcases add_face_result m vs fkey with h | ⟨_, _, _, fk3, mf, h1, h2⟩
    · rw [h] at hres
      exact absurd hres (by simp)
    · rw [h1] at hres
      have hfk : fk3 = fk2 := by injection hres
      subst hfk
      have hhe : (m.add_face vs fkey).2.halfedge
          = addFaceEdges fk3 (cyclePairs vs) m.halfedge := by rw [h2]
      rw [hhe]
      exact (addFaceEdges_mem fk3 (cyclePairs vs) m.halfedge
        (cyclePairs_mem vs i hi)).1

theorem c1_witness :
    ((∃ g, heLookup ([1, 3, 5].getD 0 0)
        ([1, 3, 5].getD ((0 + 1) % [1, 3, 5].length) 0) triMesh.halfedge
          = some (some g) ∧ g ∈ fmKeys triMesh.face) ∧
     (heLookup ([1, 3, 5].getD ((0 + 1) % [1, 3, 5].length) 0)
        ([1, 3, 5].getD 0 0) triMesh.halfedge).isSome) :=
  c1_amended.1 triMesh triMesh_reachable 1 [1, 3, 5] (by decide) 0 (by decide)

/-! Claim C6. -/

theorem add_vertex_position_self (m : Mesh) (p : Point) (k : Option Nat) :
    (m.add_vertex p k).2.vertex_position (m.add_vertex p k).1 = some p := by
  unfold Mesh.vertex_position
  rw [add_vertex_vertex, fmLookup_insert_self]
  rfl

section

attribute [local semireducible] Rat.mul Rat.add Rat.sub Rat.inv

set_option maxHeartbeats 2000000 in
/-- C6 (confirmed): during `from_polygons` ingestion — for an arbitrary
quantisation key function, hence in particular for the program's
fixed-precision string keys — two points whose keys are equal are
assigned the same vertex handle; a point with a fresh key stores its
exact position (not the rounded key) under a new handle; map entries,
once made, persist, so the first-seen position wins; a soup of two
triangles sharing an edge through coordinate-duplicated corners, over
four corner positions with pairwise distinct keys, produces 4 vertices,
not 6; and the model's exact-arithmetic key instance reproduces the
shared-edge test with an off-origin first corner whose exact coordinate
(not its rounded key) is stored. -/
theorem c6_quantisation_dedup :
    (∀ (κ : Type) [DecidableEq κ] (key : Point → κ) (st : IngestSt κ)
       (fv : List Nat) (p q : Point), key p = key q →
      ∃ h, (ingestPointK key (st, fv) p).2 = fv ++ [h] ∧
        (ingestPointK key (ingestPointK key (st, fv) p) q).2 = fv ++ [h, h]) ∧
    (∀ (κ : Type) [DecidableEq κ] (key : Point → κ) (st : IngestSt κ)
       (fv : List Nat) (p : Point), fmLookup (key p) st.vmap = none →
      ingestPointK key (st, fv) p =
        (⟨(st.mesh.add_vertex p none).2,
          fmInsert (key p) (st.mesh.add_vertex p none).1 st.vmap⟩,
         fv ++ [(st.mesh.add_vertex p none).1]) ∧
      (ingestPointK key (st, fv) p).1.mesh.vertex_position
        (st.mesh.add_vertex p none).1 = some p) ∧
    (∀ (κ : Type) [DecidableEq κ] (key : Point → κ) (st : IngestSt κ)
       (fv : List Nat) (p : Point) (k : κ) (h : Nat),
      fmLookup k st.vmap = some h →
      fmLookup k (ingestPointK key (st, fv) p).1.vmap = some h) ∧
    (∀ (κ : Type) [DecidableEq κ] (key : Point → κ),
      key ⟨0, 0, 0⟩ ≠ key ⟨1, 0, 0⟩ → key ⟨0, 0, 0⟩ ≠ key ⟨0, 1, 0⟩ →
      key ⟨0, 0, 0⟩ ≠ key ⟨1, 1, 0⟩ → key ⟨1, 0, 0⟩ ≠ key ⟨0, 1, 0⟩ →
      key ⟨1, 0, 0⟩ ≠ key ⟨1, 1, 0⟩ → key ⟨0, 1, 0⟩ ≠ key ⟨1, 1, 0⟩ →
      (from_polygonsK key
          [[⟨0, 0, 0⟩, ⟨1, 0, 0⟩, ⟨0, 1, 0⟩],
           [⟨1, 0, 0⟩, ⟨0, 1, 0⟩, ⟨1, 1, 0⟩]]).number_of_vertices = 4 ∧
      fmLookup 1 (from_polygonsK key
          [[⟨0, 0, 0⟩, ⟨1, 0, 0⟩, ⟨0, 1, 0⟩],
           [⟨1, 0, 0⟩, ⟨0, 1, 0⟩, ⟨1, 1, 0⟩]]).face = some [1, 3, 5] ∧
      fmLookup 3 (from_polygonsK key
          [[⟨0, 0, 0⟩, ⟨1, 0, 0⟩, ⟨0, 1, 0⟩],
           [⟨1, 0, 0⟩, ⟨0, 1, 0⟩, ⟨1, 1, 0⟩]]).face = some [3, 5, 7] ∧
      (from_polygonsK key
          [[⟨0, 0, 0⟩, ⟨1, 0, 0⟩, ⟨0, 1, 0⟩],
           [⟨1, 0, 0⟩, ⟨0, 1, 0⟩, ⟨1, 1, 0⟩]]).vertex_position 1
        = some ⟨0, 0, 0⟩) ∧
    (soupMesh.number_of_vertices = 4 ∧
     fmLookup 1 soupMesh.face = some [1, 3, 5] ∧
     fmLookup 3 soupMesh.face = some [1, 5, 7] ∧
     soupMesh.vertex_position 1 = some ⟨1 / 10 ^ 11, 0, 0⟩) := by
  refine ⟨?_, ?_, ?_, ?_, by decide, by decide, by decide, by decide⟩
  · intro κ _ key st fv p q hpq
    cases hk : fmLookup (key p) st.vmap with
    | some h =>
      have e1 : ingestPointK key (st, fv) p = (st, fv ++ [h]) := by
        simp [ingestPointK, hk]
      have hkq : fmLookup (key q) st.vmap = some h := by
        rw [← hpq]; exact hk
      refine ⟨h, by rw [e1], ?_⟩
      rw [e1]
      simp [ingestPointK, hkq]
    | none =>
      have e1 : ingestPointK key (st, fv) p =
          (⟨(st.mesh.add_vertex p none).2,
            fmInsert (key p) (st.mesh.add_vertex p none).1 st.vmap⟩,
           fv ++ [(st.mesh.add_vertex p none).1]) := by
        simp [ingestPointK, hk]
      have hkq : fmLookup (key q)
          (fmInsert (key p) (st.mesh.add_vertex p none).1 st.vmap)
            = some (st.mesh.add_vertex p none).1 := by
        rw [← hpq, fmLookup_insert_self]
      refine ⟨(st.mesh.add_vertex p none).1, by rw [e1], ?_⟩
      rw [e1]
      simp [ingestPointK, hkq]
  · intro κ _ key st fv p hk
    have heq : ingestPointK key (st, fv) p =
        (⟨(st.mesh.add_vertex p none).2,
          fmInsert (key p) (st.mesh.add_vertex p none).1 st.vmap⟩,
         fv ++ [(st.mesh.add_vertex p none).1]) := by
      simp [ingestPointK, hk]
    refine ⟨heq, ?_⟩
    rw [heq]
    exact add_vertex_position_self st.mesh p none
  · intro κ _ key st fv p k h hk
    unfold ingestPointK
    cases hq : fmLookup (key p) st.vmap with
    | some h2 => simp [hq, hk]
    | none =>
      by_cases hkey : k = key p
      · rw [hkey, hq] at hk
        cases hk
      · simp only [hq]
        rw [fmLookup_insert_ne hkey]
        exact hk
  · intro κ _ key hAB hAC hAD hBC hBD hCD
    simp [from_polygonsK, ingestPolygonK, ingestPointK, fmLookup, fmInsert,
      Mesh.add_vertex, Mesh.add_face, Mesh.new, Mesh.number_of_vertices,
      Mesh.vertex_position, VertexData.new, VertexData.position, fmContains,
      fmEntryOr, addFaceEdges, addFaceEdge, cyclePairs, heLookup, List.range_succ,
      hAB, hAC, hAD, hBC, hBD, hCD]

theorem c6_witness :
    (quantKey (1 / 10 ^ 10) ⟨0, 0, 0⟩ ≠ quantKey (1 / 10 ^ 10) ⟨1, 0, 0⟩ ∧
     quantKey (1 / 10 ^ 10) ⟨0, 0, 0⟩ ≠ quantKey (1 / 10 ^ 10) ⟨0, 1, 0⟩ ∧
     quantKey (1 / 10 ^ 10) ⟨0, 0, 0⟩ ≠ quantKey (1 / 10 ^ 10) ⟨1, 1, 0⟩ ∧
     quantKey (1 / 10 ^ 10) ⟨1, 0, 0⟩ ≠ quantKey (1 / 10 ^ 10) ⟨0, 1, 0⟩ ∧
     quantKey (1 / 10 ^ 10) ⟨1, 0, 0⟩ ≠ quantKey (1 / 10 ^ 10) ⟨1, 1, 0⟩ ∧
     quantKey (1 / 10 ^ 10) ⟨0, 1, 0⟩ ≠ quantKey (1 / 10 ^ 10) ⟨1, 1, 0⟩) ∧
    ((from_polygonsK (quantKey (1 / 10 ^ 10))
        [[⟨0, 0, 0⟩, ⟨1, 0, 0⟩, ⟨0, 1, 0⟩],
         [⟨1, 0, 0⟩, ⟨0, 1, 0⟩, ⟨1, 1, 0⟩]]).number_of_vertices = 4 ∧
     fmLookup 1 (from_polygonsK (quantKey (1 / 10 ^ 10))
        [[⟨0, 0, 0⟩, ⟨1, 0, 0⟩, ⟨0, 1, 0⟩],
         [⟨1, 0, 0⟩, ⟨0, 1, 0⟩, ⟨1, 1, 0⟩]]).face = some [1, 3, 5] ∧
     fmLookup 3 (from_polygonsK (quantKey (1 / 10 ^ 10))
        [[⟨0, 0, 0⟩, ⟨1, 0, 0⟩, ⟨0, 1, 0⟩],
         [⟨1, 0, 0⟩, ⟨0, 1, 0⟩, ⟨1, 1, 0⟩]]).face = some [3, 5, 7] ∧
     (from_polygonsK (quantKey (1 / 10 ^ 10))
        [[⟨0, 0, 0⟩, ⟨1, 0, 0⟩, ⟨0, 1, 0⟩],
         [⟨1, 0, 0⟩, ⟨0, 1, 0⟩, ⟨1, 1, 0⟩]]).vertex_position 1
       = some ⟨0, 0, 0⟩) :=
  ⟨⟨by decide, by decide, by decide, by decide, by decide, by decide⟩,
   c6_quantisation_dedup.2.2.2.1 (ℚ × ℚ × ℚ) (quantKey (1 / 10 ^ 10))
     (by decide) (by decide) (by decide) (by decide) (by decide) (by decide)⟩

end

/-! Claim C2. -/

theorem vector_length_nonneg (v : Vector) : 0 ≤ v.length :=
  Real.sqrt_nonneg _

theorem face_normal_eval {m : Mesh} {f : Nat} {c : List Nat} {p0 p1 p2 : Point}
    (hc : fmLookup f m.face = some c) (hlen : ¬ c.length < 3)
    (h0 : m.vertex_position (c.getD 0 0) = some p0)
    (h1 : m.vertex_position (c.getD 1 0) = some p1)
    (h2 : m.vertex_position (c.getD 2 0) = some p2) :
    m.face_normal f = some ((edgeVec p0 p1).cross (edgeVec p0 p2)).unitize := by
  unfold Mesh.face_normal
  simp only [hc, if_neg hlen, h0, h1, h2]

theorem specFaceCross_eval {m : Mesh} {f : Nat} {c : List Nat} {p0 p1 p2 : Point}
    (hc : fmLookup f m.face = some c)
    (h0 : m.vertex_position (c.getD 0 0) = some p0)
    (h1 : m.vertex_position (c.getD 1 0) = some p1)
    (h2 : m.vertex_position (c.getD 2 0) = some p2) :
    specFaceCross m f = some ((edgeVec p0 p1).cross (edgeVec p0 p2)) := by
  unfold specFaceCross
  simp only [hc, h0, h1, h2]

theorem unitize_zero : (Vector.mk (0 : ℝ) 0 0).unitize = ⟨0, 0, 0⟩ := by
  unfold Vector.unitize
  rw [if_neg]
  unfold Vector.length
  norm_num [Real.sqrt_zero]

/-- C2 counterexample: the collinear face of `colMesh` has a zero cross
product, yet `face_normal` returns `Some` of the zero vector, not `None`
(`unitize` is a no-op on a zero-length vector and its failure flag is
ignored). -/
theorem c2_counterexample :
    specFaceCross colMesh 1 = some ⟨0, 0, 0⟩ ∧
    colMesh.face_normal 1 = some ⟨0, 0, 0⟩ := by
  have hc : fmLookup 1 colMesh.face = some [1, 3, 5] := by decide
  have h0 : colMesh.vertex_position ([1, 3, 5].getD 0 0) = some ⟨0, 0, 0⟩ := by decide
  have h1 : colMesh.vertex_position ([1, 3, 5].getD 1 0) = some ⟨1, 0, 0⟩ := by decide
  have h2 : colMesh.vertex_position ([1, 3, 5].getD 2 0) = some ⟨2, 0, 0⟩ := by decide
  have hcross : (edgeVec ⟨0, 0, 0⟩ ⟨1, 0, 0⟩).cross (edgeVec ⟨0, 0, 0⟩ ⟨2, 0, 0⟩)
      = (⟨0, 0, 0⟩ : Vector) := by
    simp only [edgeVec, Vector.cross, Vector.mk.injEq]
    norm_num
  have hsc := specFaceCross_eval hc h0 h1 h2
  rw [hcross] at hsc
  have hfn := face_normal_eval hc (by decide) h0 h1 h2
  rw [hcross, unitize_zero] at hfn
  exact ⟨hsc, hfn⟩

/-- C2 amended: for a stored face whose first three vertices exist,
`face_normal` always returns `Some`: the unit vector in the direction of
the corner cross product when that cross product has nonzero length, and
the zero vector itself (not `None`) when it has zero length — `None`
arises only for a missing face or missing vertex. -/
theorem c2_amended (m : Mesh) (f : Nat) (c : List Nat) (cr : Vector)
    (hc : fmLookup f m.face = some c) (hlen : 3 ≤ c.length)
    (hcr : specFaceCross m f = some cr) :
    m.face_normal f ≠ none ∧
    (cr.length = 0 → m.face_normal f = some cr) ∧
    (cr.length ≠ 0 →
      m.face_normal f = some ⟨cr.x / cr.length, cr.y / cr.length, cr.z / cr.length⟩) := by
  simp only [specFaceCross, hc] at hcr
  cases h0 : m.vertex_position (c.getD 0 0) with
  | none => rw [h0] at hcr; simp at hcr
  | some p0 =>
  cases h1 : m.vertex_position (c.getD 1 0) with
  | none => rw [h0, h1] at hcr; simp at hcr
  | some p1 =>
  cases h2 : m.vertex_position (c.getD 2 0) with
  | none => rw [h0, h1, h2] at hcr; simp at hcr
  | some p2 =>
  rw [h0, h1, h2] at hcr
  simp only [Option.some.injEq] at hcr
  have hfn := face_normal_eval hc (Nat.not_lt.mpr hlen) h0 h1 h2
  rw [hcr] at hfn
  refine ⟨by rw [hfn]; simp, ?_, ?_⟩
  · intro hzero
    rw [hfn]
    unfold Vector.unitize
    rw [if_neg (by rw [hzero]; exact lt_irrefl 0)]
  · intro hne
    have hpos : 0 < cr.length :=
      lt_of_le_of_ne (vector_length_nonneg cr) (Ne.symm hne)
    rw [hfn]
    unfold Vector.unitize
    rw [if_pos hpos]

theorem c2_witness :
    specFaceCross triMesh 1 = some ⟨0, 0, 1⟩ ∧
    (triMesh.face_normal 1 ≠ none ∧
     ((Vector.mk (0 : ℝ) 0 1).length = 0 → triMesh.face_normal 1 = some ⟨0, 0, 1⟩) ∧
     ((Vector.mk (0 : ℝ) 0 1).length ≠ 0 →
       triMesh.face_normal 1 = some
         ⟨(Vector.mk (0 : ℝ) 0 1).x / (Vector.mk (0 : ℝ) 0 1).length,
          (Vector.mk (0 : ℝ) 0 1).y / (Vector.mk (0 : ℝ) 0 1).length,
          (Vector.mk (0 : ℝ) 0 1).z / (Vector.mk (0 : ℝ) 0 1).length⟩)) := by
  have hc : fmLookup 1 triMesh.face = some [1, 3, 5] := by decide
  have h0 : triMesh.vertex_position ([1, 3, 5].getD 0 0) = some ⟨0, 0, 0⟩ := by decide
  have h1 : triMesh.vertex_position ([1, 3, 5].getD 1 0) = some ⟨1, 0, 0⟩ := by decide
  have h2 : triMesh.vertex_position ([1, 3, 5].getD 2 0) = some ⟨0, 1, 0⟩ := by decide
  have hcross : (edgeVec ⟨0, 0, 0⟩ ⟨1, 0, 0⟩).cross (edgeVec ⟨0, 0, 0⟩ ⟨0, 1, 0⟩)
      = (⟨0, 0, 1⟩ : Vector) := by
    simp only [edgeVec, Vector.cross, Vector.mk.injEq]
    norm_num
  have hsc := specFaceCross_eval hc h0 h1 h2
  rw [hcross] at hsc
  exact ⟨hsc, c2_amended triMesh 1 [1, 3, 5] ⟨0, 0, 1⟩ (by decide) (by decide) hsc⟩

/-! Claim C9. -/

theorem positionsOf_length (m : Mesh) (c : List Nat) :
    (positionsOf m c).length = c.length := by
  unfold positionsOf
  exact List.length_map c _

theorem positionsOf_getD (m : Mesh) (c : List Nat) (i : Nat) (hi : i < c.length) :
    (positionsOf m c).getD i ⟨0, 0, 0⟩
      = (m.vertex_position (c.getD i 0)).getD ⟨0, 0, 0⟩ := by
  induction c generalizing i with
  | nil => exact absurd hi (by simp)
  | cons hd t ih =>
    cases i with
    | zero => rfl
    | succ i2 =>
      have hi2 : i2 < t.length := by simpa using hi
      have hrec := ih i2 hi2
      simpa [positionsOf, List.getD_cons_succ] using hrec

/-- Evaluation of the `face_area` fold: when every needed vertex position
exists, folding the first `n` fan triangles over accumulator `a` adds the
sum of the half-cross-magnitude terms. -/
theorem faFold_eval (m : Mesh) (c : List Nat)
    (hpos : ∀ v ∈ c, (m.vertex_position v).isSome) :
    ∀ (n : Nat), n + 2 ≤ c.length → ∀ (a : ℝ),
    (List.range n).foldl (faStep m c) (some a)
      = some (a + ((List.range n).map (fun j =>
          ((edgeVec ((positionsOf m c).getD 0 ⟨0, 0, 0⟩)
              ((positionsOf m c).getD (j + 1) ⟨0, 0, 0⟩)).cross
            (edgeVec ((positionsOf m c).getD 0 ⟨0, 0, 0⟩)
              ((positionsOf m c).getD (j + 2) ⟨0, 0, 0⟩))).length * (1 / 2))).sum) := by
  intro n
  induction n with
  | zero => intro hn a; simp
  | succ n ih =>
    intro hn a
    have h0lt : 0 < c.length := by omega
    have h1lt : n + 1 < c.length := by omega
    have h2lt : n + 2 < c.length := by omega
    obtain ⟨p0, hp0⟩ := Option.isSome_iff_exists.mp (hpos _ (getD_mem_of_lt h0lt))
    obtain ⟨p1, hp1⟩ := Option.isSome_iff_exists.mp (hpos _ (getD_mem_of_lt h1lt))
    obtain ⟨p2, hp2⟩ := Option.isSome_iff_exists.mp (hpos _ (getD_mem_of_lt h2lt))
    have e0 : (positionsOf m c).getD 0 ⟨0, 0, 0⟩ = p0 := by
      rw [positionsOf_getD m c 0 h0lt, hp0]; rfl
    have e1 : (positionsOf m c).getD (n + 1) ⟨0, 0, 0⟩ = p1 := by
      rw [positionsOf_getD m c (n + 1) h1lt, hp1]; rfl
    have e2 : (positionsOf m c).getD (n + 2) ⟨0, 0, 0⟩ = p2 := by
      rw [positionsOf_getD m c (n + 2) h2lt, hp2]; rfl
    rw [List.range_succ, List.foldl_append, ih (by omega) a, List.map_append,
      List.sum_append, List.foldl_cons, List.foldl_nil]
    simp only [faStep, hp0, hp1, hp2, List.map_cons, List.map_nil, List.sum_cons,
      List.sum_nil, e0, e1, e2]
    congr 1
    ring

theorem c9_face_area_fan (m : Mesh) (f : Nat) (c : List Nat)
    (hc : fmLookup f m.face = some c) (hlen : 3 ≤ c.length)
    (hpos : ∀ v ∈ c, (m.vertex_position v).isSome) :
    m.face_area f = some (specFanArea (positionsOf m c)) ∧
    0 ≤ specFanArea (positionsOf m c) := by
  constructor
  · unfold Mesh.face_area
    simp only [hc, if_neg (Nat.not_lt.mpr hlen)]
    rw [faFold_eval m c hpos (c.length - 2) (by omega) 0]
    unfold specFanArea
    rw [positionsOf_length, zero_add]
  · unfold specFanArea
    apply List.sum_nonneg
    intro x hx
    obtain ⟨j, hj, rfl⟩ := List.mem_map.mp hx
    exact mul_nonneg (vector_length_nonneg _) (by norm_num)

theorem c9_witness :
    triMesh.face_area 1 = some (specFanArea (positionsOf triMesh [1, 3, 5])) ∧
    0 ≤ specFanArea (positionsOf triMesh [1, 3, 5]) :=
  c9_face_area_fan triMesh 1 [1, 3, 5] (by decide) (by decide) (by decide)

/-! Claim C3. -/

theorem faStep_none_acc (m : Mesh) (c : List Nat) (j : Nat) :
    faStep m c none j = none := rfl

theorem faFold_none (m : Mesh) (c : List Nat) (l : List Nat) :
    l.foldl (faStep m c) none = none := by
  induction l with
  | nil => rfl
  | cons j t ih => rw [List.foldl_cons, faStep_none_acc, ih]

theorem faFold_nonneg (m : Mesh) (c : List Nat) (l : List Nat) (b : ℝ) :
    ∀ a : ℝ, 0 ≤ a → l.foldl (faStep m c) (some a) = some b → 0 ≤ b := by
  induction l with
  | nil =>
    intro a ha hb
    rw [List.foldl_nil] at hb
    have : a = b := by injection hb
    rw [← this]; exact ha
  | cons j t ih =>
    intro a ha hb
    rw [List.foldl_cons] at hb
    cases hstep : faStep m c (some a) j with
    | none =>
      rw [hstep, faFold_none] at hb
      cases hb
    | some a2 =>
      rw [hstep] at hb
      refine ih a2 ?_ hb
      unfold faStep at hstep
      cases h0 : m.vertex_position (c.getD 0 0) with
      | none => rw [h0] at hstep; simp at hstep
      | some p0 =>
      cases h1 : m.vertex_position (c.getD (j + 1) 0) with
      | none => rw [h0, h1] at hstep; simp at hstep
      | some p1 =>
      cases h2 : m.vertex_position (c.getD (j + 2) 0) with
      | none => rw [h0, h1, h2] at hstep; simp at hstep
      | some p2 =>
      rw [h0, h1, h2] at hstep
      simp only [Option.some.injEq] at hstep
      rw [← hstep]
      exact add_nonneg ha (mul_nonneg (vector_length_nonneg _) (by norm_num))

theorem face_area_nonneg (m : Mesh) (f : Nat) (a : ℝ)
    (h : m.face_area f = some a) : 0 ≤ a := by
  unfold Mesh.face_area at h
  cases hc : fmLookup f m.face with
  | none => rw [hc] at h; simp at h
  | some c =>
    simp only [hc] at h
    by_cases hlen : c.length < 3
    · rw [if_pos hlen] at h; cases h
    · rw [if_neg hlen] at h
      exact faFold_nonneg m c _ a 0 le_rfl h

theorem vnFold_area_nonneg (m : Mesh) (l : List Nat) :
    ∀ acc : Vector × ℝ, 0 ≤ acc.2 → 0 ≤ (l.foldl (vnStep m) acc).2 := by
  induction l with
  | nil => intro acc h; exact h
  | cons fk t ih =>
    intro acc h
    rw [List.foldl_cons]
    apply ih
    unfold vnStep
    cases hfn : m.face_normal fk with
    | none => exact h
    | some fn =>
      simp only []
      have har : 0 ≤ (m.face_area fk).getD 0 := by
        cases hfa : m.face_area fk with
        | none => simp
        | some ar => simpa using face_area_nonneg m fk ar hfa
      exact add_nonneg h har

/-- C3 counterexample: at vertex 1 of `oppMesh`, the two incident faces
have equal areas and exactly opposite unit normals, so the area-weighted
sum is the zero vector while the total area is positive — yet
`vertex_normal` returns `Some` of the zero vector, not `None`. -/
theorem c3_counterexample :
    (vnAccum oppMesh 1).1 = ⟨0, 0, 0⟩ ∧ 0 < (vnAccum oppMesh 1).2 ∧
    oppMesh.vertex_normal 1 = some ⟨0, 0, 0⟩ := by
  have hvf : oppMesh.vertex_faces 1 = [1, 3] := by decide
  have hc1 : fmLookup 1 oppMesh.face = some [1, 3, 5] := by decide
  have hc3 : fmLookup 3 oppMesh.face = some [1, 5, 3] := by decide
  have hq10 : oppMesh.vertex_position ([1, 3, 5].getD 0 0) = some ⟨0, 0, 0⟩ := by decide
  have hq11 : oppMesh.vertex_position ([1, 3, 5].getD 1 0) = some ⟨1, 0, 0⟩ := by decide
  have hq12 : oppMesh.vertex_position ([1, 3, 5].getD 2 0) = some ⟨0, 1, 0⟩ := by decide
  have hq30 : oppMesh.vertex_position ([1, 5, 3].getD 0 0) = some ⟨0, 0, 0⟩ := by decide
  have hq31 : oppMesh.vertex_position ([1, 5, 3].getD 1 0) = some ⟨0, 1, 0⟩ := by decide
  have hq32 : oppMesh.vertex_position ([1, 5, 3].getD 2 0) = some ⟨1, 0, 0⟩ := by decide
  have hcross1 : (edgeVec ⟨0, 0, 0⟩ ⟨1, 0, 0⟩).cross (edgeVec ⟨0, 0, 0⟩ ⟨0, 1, 0⟩)
      = (⟨0, 0, 1⟩ : Vector) := by
    simp only [edgeVec, Vector.cross, Vector.mk.injEq]
    norm_num
  have hcross3 : (edgeVec ⟨0, 0, 0⟩ ⟨0, 1, 0⟩).cross (edgeVec ⟨0, 0, 0⟩ ⟨1, 0, 0⟩)
      = (⟨0, 0, -1⟩ : Vector) := by
    simp only [edgeVec, Vector.cross, Vector.mk.injEq]
    norm_num
  have hu1 : (Vector.mk (0 : ℝ) 0 1).unitize = ⟨0, 0, 1⟩ := by
    unfold Vector.unitize Vector.length
    norm_num [Real.sqrt_one]
  have hu3 : (Vector.mk (0 : ℝ) 0 (-1)).unitize = ⟨0, 0, -1⟩ := by
    unfold Vector.unitize Vector.length
    norm_num [Real.sqrt_one]
  have hfn1 : oppMesh.face_normal 1 = some ⟨0, 0, 1⟩ := by
    have := face_normal_eval hc1 (by decide) hq10 hq11 hq12
    rw [hcross1, hu1] at this
    exact this
  have hfn3 : oppMesh.face_normal 3 = some ⟨0, 0, -1⟩ := by
    have := face_normal_eval hc3 (by decide) hq30 hq31 hq32
    rw [hcross3, hu3] at this
    exact this
  have hlen1 : (Vector.mk (0 : ℝ) 0 1).length = 1 := by
    unfold Vector.length
    norm_num [Real.sqrt_one]
  have hlen3 : (Vector.mk (0 : ℝ) 0 (-1)).length = 1 := by
    unfold Vector.length
    norm_num [Real.sqrt_one]
  have hfa1 : oppMesh.face_area 1 = some (1 / 2) := by
    unfold Mesh.face_area
    simp only [hc1]
    rw [if_neg (by norm_num)]
    have hr1 : List.range ([1, 3, 5].length - 2) = [0] := by decide
    rw [hr1, List.foldl_cons, List.foldl_nil]
    simp only [faStep, hq10, hq11, hq12, hcross1, hlen1]
    norm_num
  have hfa3 : oppMesh.face_area 3 = some (1 / 2) := by
    unfold Mesh.face_area
    simp only [hc3]
    rw [if_neg (by norm_num)]
    have hr3 : List.range ([1, 5, 3].length - 2) = [0] := by decide
    rw [hr3, List.foldl_cons, List.foldl_nil]
    simp only [faStep, hq30, hq31, hq32, hcross3, hlen3]
    norm_num
  have hvacc : vnAccum oppMesh 1 = (⟨0, 0, 0⟩, 1) := by
    unfold vnAccum
    rw [hvf]
    simp only [List.foldl_cons, List.foldl_nil, vnStep, hfn1, hfn3, hfa1, hfa3,
      Option.getD_some, Prod.mk.injEq, Vector.mk.injEq]
    norm_num
  refine ⟨by rw [hvacc], by rw [hvacc]; norm_num, ?_⟩
  unfold Mesh.vertex_normal
  rw [if_neg (by rw [hvf]; simp)]
  rw [if_pos (by rw [hvacc]; norm_num)]
  rw [hvacc]
  simp only []
  rw [show ((⟨0, 0, 0⟩, (1 : ℝ)) : Vector × ℝ).1.x / ((⟨0, 0, 0⟩, (1 : ℝ)) : Vector × ℝ).2 = 0 by norm_num]
  norm_num [unitize_zero]

/-- C3 amended: `vertex_normal` returns `None` exactly when the vertex
has no incident face or the accumulated incident area is zero; the
accumulated area is never negative; and when it is positive the result
is `Some` of the unitized area-weighted average — in particular a
zero-length weighted sum with positive area yields `Some` of the zero
vector, not `None`. -/
theorem c3_amended (m : Mesh) (v : Nat) :
    (m.vertex_normal v = none ↔ m.vertex_faces v = [] ∨ (vnAccum m v).2 = 0) ∧
    0 ≤ (vnAccum m v).2 ∧
    (0 < (vnAccum m v).2 →
      m.vertex_normal v = some (Vector.unitize
        ⟨(vnAccum m v).1.x / (vnAccum m v).2, (vnAccum m v).1.y / (vnAccum m v).2,
         (vnAccum m v).1.z / (vnAccum m v).2⟩)) := by
  have hnn : 0 ≤ (vnAccum m v).2 := vnFold_area_nonneg m _ _ (le_refl 0)
  refine ⟨?_, hnn, ?_⟩
  · unfold Mesh.vertex_normal
    by_cases hemp : (m.vertex_faces v).isEmpty = true
    · rw [if_pos hemp]
      exact Iff.intro (fun _ => Or.inl (List.isEmpty_iff.mp hemp)) (fun _ => rfl)
    · rw [if_neg hemp]
      by_cases hpos : 0 < (vnAccum m v).2
      · rw [if_pos hpos]
        constructor
        · intro hcon; cases hcon
        · rintro (h | h)
          · exact absurd (List.isEmpty_iff.mpr h) hemp
          · rw [h] at hpos; exact absurd hpos (lt_irrefl 0)
      · rw [if_neg hpos]
        have hzero : (vnAccum m v).2 = 0 := le_antisymm (not_lt.mp hpos) hnn
        exact Iff.intro (fun _ => Or.inr hzero) (fun _ => rfl)
  · intro hpos
    have hne : ¬ (m.vertex_faces v).isEmpty = true := by
      intro hemp
      have hfe : m.vertex_faces v = [] := List.isEmpty_iff.mp hemp
      have hacc : (vnAccum m v).2 = 0 := by
        unfold vnAccum
        rw [hfe]
        rfl
      rw [hacc] at hpos
      exact absurd hpos (lt_irrefl 0)
    unfold Mesh.vertex_normal
    rw [if_neg hne, if_pos hpos]

theorem c3_witness :
    ((oppMesh.vertex_normal 1 = none ↔
        oppMesh.vertex_faces 1 = [] ∨ (vnAccum oppMesh 1).2 = 0) ∧
     0 ≤ (vnAccum oppMesh 1).2 ∧
     (0 < (vnAccum oppMesh 1).2 →
       oppMesh.vertex_normal 1 = some (Vector.unitize
         ⟨(vnAccum oppMesh 1).1.x / (vnAccum oppMesh 1).2,
          (vnAccum oppMesh 1).1.y / (vnAccum oppMesh 1).2,
          (vnAccum oppMesh 1).1.z / (vnAccum oppMesh 1).2⟩))) :=
  c3_amended oppMesh 1

end OpenModel
